import Mathlib

/-!
Verification development for the CareOps booking/automation core.

The definitions below are shallow embeddings of the Python source:
  - `app/services/booking_state_machine.py` (statuses, transition table, transition)
  - `app/services/automation_engine.py` (fire_trigger, _render_template, _log_execution)
  - `app/services/scheduler.py` (booking reminders, pending-form reminders)
  - `app/api/v1/endpoints/bookings.py` (get_available_slots slot walk)

Machine conventions: instants are integers (seconds, or minutes for the
slot walk — noted at each definition); Python dicts with string keys are
association lists with unique keys; Python truthiness of an optional
string-valued field is `truthy` below; raised exceptions are `Except`
errors; database tables are lists of rows threaded through functions.
-/

namespace CareOps

/-- Booking statuses, mirroring `BookingStatus` in `app/models/enums.py`. -/
inductive BookingStatus where
  | pending
  | confirmed
  | completed
  | cancelled
  | noShow
deriving DecidableEq

/-- String value of each status (the `StrEnum` values in the source). -/
def statusValue : BookingStatus → String
  | .pending => "pending"
  | .confirmed => "confirmed"
  | .completed => "completed"
  | .cancelled => "cancelled"
  | .noShow => "no_show"

/-- The transition table `VALID_TRANSITIONS` of
`app/services/booking_state_machine.py` (lines 27-37). The Python dict is
total over the five statuses; `dict.get(current, set())` is mirrored by a
total function. Sets of statuses are lists (the source sets are small and
duplicate-free). -/
def VALID_TRANSITIONS : BookingStatus → List BookingStatus
  | .pending => [.confirmed, .cancelled]
  | .confirmed => [.completed, .cancelled, .noShow]
  | .completed => []
  | .cancelled => []
  | .noShow => []

/-- Payload of `InvalidTransitionError` (state machine lines 40-49): the
rejected pair plus the allowed set the message reports. -/
structure InvalidTransitionError where
  current : BookingStatus
  target : BookingStatus
  allowed : List BookingStatus
deriving DecidableEq

/-- `BookingStateMachine.validate_transition` (lines 65-74): raises
`InvalidTransitionError` when the target is not in the allowed set,
otherwise returns `True`. -/
def validate_transition (current_status target_status : BookingStatus) :
    Except InvalidTransitionError Bool :=
  if target_status ∈ VALID_TRANSITIONS current_status then .ok true
  else .error ⟨current_status, target_status, VALID_TRANSITIONS current_status⟩

/-- A stored booking row, with the fields `transition` touches. -/
structure BookingRow where
  id : Nat
  workspace_id : Nat
  status : String
  notes : Option String
deriving DecidableEq

/-- The supabase update of `transition` step 2: set the status (and the
notes when supplied and non-empty, mirroring `if notes:`) on every row
matching both `id` and `workspace_id` filters. Returns the new table and
the list of updated rows (`result.data`). -/
def updateBooking (store : List BookingRow) (booking_id workspace_id : Nat)
    (target_status : BookingStatus) (notes : Option String) :
    List BookingRow × List BookingRow :=
  let hit : BookingRow → Bool := fun r =>
    r.id == booking_id && r.workspace_id == workspace_id
  let upd : BookingRow → BookingRow := fun r =>
    { r with
      status := statusValue target_status
      notes := match notes with
        | some n => if n.isEmpty then r.notes else some n
        | none => r.notes }
  (store.map (fun r => if hit r then upd r else r),
   (store.filter hit).map upd)

/-- Failures `transition` can raise: the invalid-transition rejection, or
the `ExternalServiceError` when the scoped update matched no row. -/
inductive TransitionFailure where
  | invalid (e : InvalidTransitionError)
  | persistence (message : String)
deriving DecidableEq

/-- Result of a successful transition: updated row plus side-effect
outcome map. -/
structure TransitionResult where
  booking : BookingRow
  side_effects : List (String × String)
deriving DecidableEq

/-- `BookingStateMachine.transition` (lines 76-129). Side-effect dispatch
(`_execute_side_effects`) calls external collaborators and never raises
(its body is wrapped in try/except); it is passed in as a function
argument. The returned pair is (table after the call, outcome). -/
def transition (sideEffects : BookingRow → BookingStatus → BookingStatus → List (String × String))
    (store : List BookingRow) (booking_id workspace_id : Nat)
    (current_status target_status : BookingStatus) (notes : Option String) :
    List BookingRow × Except TransitionFailure TransitionResult :=
  match validate_transition current_status target_status with
  | .error e => (store, .error (.invalid e))
  | .ok _ =>
    let r := updateBooking store booking_id workspace_id target_status notes
    match r.2 with
    | [] => (r.1, .error (.persistence "Failed to update booking"))
    | b :: _ =>
      (r.1, .ok ⟨b, sideEffects b current_status target_status⟩)

/-! Automation engine (`app/services/automation_engine.py`). -/

/-- Python truthiness of an optional string-valued field (`dict.get`
results): absent or empty is falsy. Boolean `True` flags stored in JSON
maps are modelled as the string `"true"`. -/
def truthy : Option String → Bool
  | none => false
  | some s => !s.isEmpty

/-- Python `key.startswith("_")` for the internal-marker prefix: the first
character is an underscore (checked on the character list, which is what
the one-character-prefix test amounts to). -/
def startsUnderscore (k : String) : Bool :=
  match k.data with
  | [] => false
  | c :: _ => c == Char.ofNat 95

/-- Lookup in a Python dict modelled as an association list (`dict.get`;
keys of a Python dict are unique, so first match is the match). -/
def dictGet : List (String × String) → String → Option String
  | [], _ => none
  | kv :: tl, k => if kv.1 == k then some kv.2 else dictGet tl k

/-- Python dict assignment `d[k] = v`: overwrite in place when the key
exists (keys of a Python dict are unique), else append. -/
def dictInsert : List (String × String) → String → String → List (String × String)
  | [], k, v => [(k, v)]
  | kv :: tl, k, v => if kv.1 == k then (k, v) :: tl else kv :: dictInsert tl k v

/-- An automation rule row (`automation_rules` table), with the string
`action_config` entries the engine consults. -/
structure AutomationRule where
  id : Nat
  workspace_id : String
  name : String
  trigger : String
  action : String
  action_config : List (String × String)
  is_active : Bool
deriving DecidableEq

/-- An `automation_logs` row as built by `_log_execution`. -/
structure LogEntry where
  rule_id : Nat
  workspace_id : String
  status : String
  trigger_payload : List (String × String)
  action_result : List (String × String)
deriving DecidableEq

/-- `AutomationEngine._log_execution` (lines 425-449): strip keys starting
with the internal-marker prefix from the payload and build the log row.
(The row is also inserted into `automation_logs`; callers below collect the
inserted rows.) -/
def log_execution (rule : AutomationRule) (payload : List (String × String))
    (status : String) (result : List (String × String)) : LogEntry :=
  { rule_id := rule.id
    workspace_id := rule.workspace_id
    status := status
    trigger_payload := payload.filter (fun kv => !startsUnderscore kv.1)
    action_result := result }

/-- The reminder-only gate of `fire_trigger` (lines 166-168): skip a rule
whose config carries a truthy `is_reminder` flag when the payload is not
itself flagged as a reminder. -/
def ruleSkipped (rule : AutomationRule) (payload : List (String × String)) : Bool :=
  truthy (dictGet rule.action_config "is_reminder")
    && !truthy (dictGet payload "_is_reminder")

/-- Everything `fire_trigger` produces: the payload map as the caller sees
it afterwards (the Python dict is mutated in place), the list the call
returns, and the rows inserted into `automation_logs`. -/
structure FireOutcome where
  payload : List (String × String)
  results : List LogEntry
  db_logs : List LogEntry
deriving DecidableEq

/-- One iteration of the rule loop of `fire_trigger` (lines 164-177),
accumulating (returned results, inserted log rows). A rule raising is an
`Except.error` of the executor; its log row is inserted but not appended
to the returned results. -/
def fireStep (execRule : AutomationRule → List (String × String) → Except String (List (String × String)))
    (p : List (String × String)) (acc : List LogEntry × List LogEntry)
    (rule : AutomationRule) : List LogEntry × List LogEntry :=
  if ruleSkipped rule p then acc
  else
    match execRule rule p with
    | .ok result =>
      (acc.1 ++ [log_execution rule p "success" result],
       acc.2 ++ [log_execution rule p "success" result])
    | .error e =>
      (acc.1, acc.2 ++ [log_execution rule p "error" [("error", e)]])

/-- The pause gate at the head of `fire_trigger` (lines 146-150): a truthy
`contact_id` in the payload whose conversation is paused. -/
def gateBlocked (isPaused : String → String → Bool) (workspace_id : String)
    (payload : List (String × String)) : Bool :=
  truthy (dictGet payload "contact_id")
    && isPaused workspace_id ((dictGet payload "contact_id").getD "")

/-- The rule select of `fire_trigger` (lines 152-159): same workspace,
same trigger, active. -/
def matchedRules (rules : List AutomationRule) (workspace_id trigger : String) :
    List AutomationRule :=
  rules.filter (fun r =>
    r.workspace_id == workspace_id && r.trigger == trigger && r.is_active)

/-- `AutomationEngine.fire_trigger` (lines 136-178). The pause lookup
`_is_automation_paused` and the single-rule executor `_execute_rule` reach
external collaborators and are passed in as functions; `rules` is the
`automation_rules` table the select filters. The function is total: a rule
executor error is caught by the loop, so a call never raises. -/
def fire_trigger (isPaused : String → String → Bool)
    (execRule : AutomationRule → List (String × String) → Except String (List (String × String)))
    (rules : List AutomationRule)
    (workspace_id trigger : String) (payload : List (String × String)) : FireOutcome :=
  if gateBlocked isPaused workspace_id payload then
    ⟨payload, [], []⟩
  else
    let matched := matchedRules rules workspace_id trigger
    let p := dictInsert payload "_workspace_id" workspace_id
    let done := matched.foldl (fireStep execRule p) ([], [])
    ⟨p, done.1, done.2⟩

/-- The log row the loop of `fire_trigger` produces for one rule (used to
state what the whole loop inserts). -/
def expectedLog (execRule : AutomationRule → List (String × String) → Except String (List (String × String)))
    (p : List (String × String)) (rule : AutomationRule) : LogEntry :=
  match execRule rule p with
  | .ok result => log_execution rule p "success" result
  | .error e => log_execution rule p "error" [("error", e)]

/-- The rows the rule loop of `fire_trigger` inserts into
`automation_logs`: one per matching rule that is not skipped by the
reminder gate, in order. -/
def loopLogs (execRule : AutomationRule → List (String × String) → Except String (List (String × String)))
    (p : List (String × String)) (l : List AutomationRule) : List LogEntry :=
  (l.filter (fun r => !ruleSkipped r p)).map (expectedLog execRule p)

/-- Concrete rule for examples: active `send_email` rule on `new_lead`. -/
def exRuleA : AutomationRule :=
  ⟨1, "w1", "Rule A", "new_lead", "send_email", [], true⟩

/-- Concrete rule for examples: a second active rule on the same trigger. -/
def exRuleB : AutomationRule :=
  ⟨2, "w1", "Rule B", "new_lead", "send_email", [], true⟩

/-- Concrete executor for examples: rule 1 succeeds, any other raises. -/
def exExec : AutomationRule → List (String × String) → Except String (List (String × String)) :=
  fun r _ => if r.id == 1 then .ok [("status", "sent")] else .error "boom"

/-! Scheduler (`app/services/scheduler.py`). Instants are seconds; the
isoformat string comparisons of the source's `gte`/`lte` filters order UTC
timestamps chronologically, so they are integer comparisons here. -/

/-- A booking row as the reminder scan reads it, with the joined contact
columns (`contacts(full_name, email, phone)`) flattened in; `contact_name`
etc. hold the `dict.get` results with the source's defaults. -/
structure BookingRec where
  id : Nat
  workspace_id : String
  contact_id : Option String
  status : String
  starts_at : Int
  metadata : List (String × String)
  contact_email : String
  contact_name : String
  contact_phone : String
deriving DecidableEq

/-- A call into `AutomationEngine.fire_trigger` made by the scheduler:
trigger name plus the synthesized payload. -/
structure FiredEvent where
  workspace_id : String
  trigger : String
  payload : List (String × String)
deriving DecidableEq

/-- `AutomationScheduler._is_automation_paused` (lines 260-280): falsy
contact ids short-circuit to `False`; otherwise the conversations table is
consulted (abstracted as `pausedQuery`). -/
def sched_is_paused (pausedQuery : String → String → Bool) (workspace_id : String)
    (contact_id : Option String) : Bool :=
  match contact_id with
  | none => false
  | some cid => if cid.isEmpty then false else pausedQuery workspace_id cid

/-- The bookings select of `_check_booking_reminders` (lines 81-88):
confirmed, `starts_at` at or after `now` (gte) and at or before
`now + 24h` (lte — both bounds inclusive). -/
def inReminderWindow (now : Int) (b : BookingRec) : Bool :=
  b.status == "confirmed" && decide (now ≤ b.starts_at)
    && decide (b.starts_at ≤ now + 86400)

/-- The per-booking skips of the reminder loop (lines 93-112): already
reminded, no contact email, or automation paused. -/
def bookingEligible (pausedQuery : String → String → Bool) (b : BookingRec) : Bool :=
  !truthy (dictGet b.metadata "reminder_sent") && !b.contact_email.isEmpty
    && !sched_is_paused pausedQuery b.workspace_id b.contact_id

/-- Abstraction of the source's strftime date/time rendering (the claims
never depend on the formatted text). -/
def fmtInstant (t : Int) : String := toString t

/-- The `booking_reminder` event synthesized at lines 123-134. -/
def reminderEvent (b : BookingRec) : FiredEvent :=
  ⟨b.workspace_id, "booking_reminder",
   [("contact_name", b.contact_name), ("contact_email", b.contact_email),
    ("contact_phone", b.contact_phone), ("booking_date", fmtInstant b.starts_at),
    ("booking_time", fmtInstant b.starts_at), ("booking_id", toString b.id)]⟩

/-- The metadata write of lines 136-139: set the reminder-sent marker and
its timestamp. -/
def markReminded (now : Int) (b : BookingRec) : BookingRec :=
  { b with
    metadata := dictInsert (dictInsert b.metadata "reminder_sent" "true")
      "reminder_sent_at" (fmtInstant now) }

/-- One iteration of the booking-reminder loop. The engine call may raise
(`fireOk` false); the exception is caught per booking (lines 143-144), so
the metadata marking is skipped but the scan continues. The db update
filters on `id` only, matching the source's `.eq("id", ...)`. -/
def remStep (pausedQuery : String → String → Bool) (fireOk : FiredEvent → Bool)
    (now : Int) (acc : List BookingRec × List FiredEvent) (b : BookingRec) :
    List BookingRec × List FiredEvent :=
  if bookingEligible pausedQuery b then
    if fireOk (reminderEvent b) then
      (acc.1.map (fun r => if r.id == b.id then markReminded now r else r),
       acc.2 ++ [reminderEvent b])
    else (acc.1, acc.2 ++ [reminderEvent b])
  else acc

/-- `AutomationScheduler._check_booking_reminders` (lines 70-147): select
the window snapshot, loop over it firing and marking. Returns the bookings
table after the tick and the `booking_reminder` fires made. -/
def check_booking_reminders (pausedQuery : String → String → Bool)
    (fireOk : FiredEvent → Bool) (now : Int) (db : List BookingRec) :
    List BookingRec × List FiredEvent :=
  (db.filter (inReminderWindow now)).foldl (remStep pausedQuery fireOk now) (db, [])

/-- Concrete booking for examples: confirmed, unreminded, with email,
starting exactly 24h after instant 0. -/
def exBooking : BookingRec :=
  ⟨5, "w1", some "c1", "confirmed", 86400, [], "a@b.c", "Ann", "123"⟩

/-- An `automation_logs` row as the pending-form scan reads it, with the
joined rule's `action` column flattened in. -/
structure AutomationLogRow where
  id : Nat
  workspace_id : String
  status : String
  executed_at : Int
  rule_action : String
  trigger_payload : List (String × String)
  action_result : List (String × String)
  metadata : List (String × String)
deriving DecidableEq

/-- A `form_submissions` row (the two columns the scan filters on). -/
structure FormSubmission where
  form_id : String
  contact_id : String
deriving DecidableEq

/-- The contact-submitted check of `_check_pending_form_reminders`
(lines 197-223): only when some submission exists for the form AND the
payload carries a truthy contact id does the contact-scoped query decide. -/
def formContactSubmitted (submissions : List FormSubmission)
    (log : AutomationLogRow) : Bool :=
  match dictGet log.action_result "form_id" with
  | none => false
  | some fid =>
    if submissions.any (fun s => s.form_id == fid) then
      match dictGet log.trigger_payload "contact_id" with
      | none => false
      | some cid =>
        if cid.isEmpty then false
        else submissions.any (fun s => s.form_id == fid && s.contact_id == cid)
    else false

/-- The per-log skips of the pending-form loop (lines 174-228): wrong
action, missing form id or contact email, already-reminded marker, contact
already submitted, or automation paused. -/
def formLogEligible (pausedQuery : String → String → Bool)
    (submissions : List FormSubmission) (log : AutomationLogRow) : Bool :=
  log.rule_action == "distribute_form"
    && truthy (dictGet log.action_result "form_id")
    && truthy (dictGet log.trigger_payload "contact_email")
    && !truthy (dictGet log.metadata "form_reminder_sent")
    && !formContactSubmitted submissions log
    && !sched_is_paused pausedQuery log.workspace_id
        (dictGet log.trigger_payload "contact_id")

/-- The reminder-flagged `form_submitted` event synthesized at
lines 238-248. -/
def formReminderEvent (log : AutomationLogRow) : FiredEvent :=
  ⟨log.workspace_id, "form_submitted",
   [("contact_name", (dictGet log.trigger_payload "contact_name").getD ""),
    ("contact_email", (dictGet log.trigger_payload "contact_email").getD ""),
    ("form_title", (dictGet log.action_result "form_title").getD "Form"),
    ("form_url", "http://localhost:3000/f/"
      ++ (dictGet log.action_result "form_id").getD ""),
    ("_is_reminder", "true")]⟩

/-- `AutomationScheduler._check_pending_form_reminders` (lines 151-256):
select successful log rows older than 24h (limit 50), fire a reminder for
each eligible one. The source performs no write on `automation_logs` in
this scan — in particular nothing ever sets the `form_reminder_sent`
marker the eligibility check reads — so the log table is returned
unchanged. -/
def check_pending_form_reminders (pausedQuery : String → String → Bool) (now : Int)
    (logs : List AutomationLogRow) (submissions : List FormSubmission) :
    List AutomationLogRow × List FiredEvent :=
  let selected := (logs.filter (fun l =>
    l.status == "success" && decide (l.executed_at ≤ now - 86400))).take 50
  (logs,
   (selected.filter (formLogEligible pausedQuery submissions)).map formReminderEvent)

/-- Concrete successful `distribute_form` log row for examples. -/
def exFormLog : AutomationLogRow :=
  ⟨1, "w1", "success", 0, "distribute_form",
   [("contact_email", "a@b.c"), ("contact_name", "Ann"), ("contact_id", "c1")],
   [("form_id", "f1"), ("form_title", "Intake")], []⟩

/-! Slot availability (`get_available_slots` in
`app/api/v1/endpoints/bookings.py`). Instants here are minutes; a calendar
day is 1440 minutes and `dayStart` is the target date's midnight. -/

/-- A booking row as the slot query reads it. -/
structure SlotBooking where
  starts_at : Int
  ends_at : Int
  status : String
deriving DecidableEq

/-- A `business_hours` row; `open_time`/`close_time` are the parsed
`HH:MM` strings as minutes from midnight. -/
structure BHBlock where
  day_of_week : Nat
  open_time : Int
  close_time : Int
  is_open : Bool
deriving DecidableEq

/-- The bookings select of lines 114-126: rows starting on the target
date (`gte` day start, `lt` next day start) and not cancelled. -/
def existingOnDate (allBookings : List SlotBooking) (dayStart : Int) :
    List SlotBooking :=
  allBookings.filter (fun b =>
    decide (dayStart ≤ b.starts_at) && decide (b.starts_at < dayStart + 1440)
      && !(b.status == "cancelled"))

/-- The overlap test of lines 158-162: candidate start strictly before an
existing end AND candidate end strictly after an existing start. -/
def overlapsAny (existing : List SlotBooking) (s e : Int) : Bool :=
  existing.any (fun b => decide (s < b.ends_at) && decide (e > b.starts_at))

/-- The while loop of lines 149-173, walking a block in fixed increments.
The extra fuel argument only bounds the iteration count: with
`blockFuel` below it fully unrolls the source loop whenever
`slotDur ≥ 1` (for `slotDur ≤ 0` the Python loop never terminates). -/
def slotWalk (slotDur now : Int) (existing : List SlotBooking) :
    Nat → Int → Int → List (Int × Int)
  | 0, _, _ => []
  | fuel + 1, current, blockEnd =>
    if current + slotDur ≤ blockEnd then
      if current < now then
        slotWalk slotDur now existing fuel (current + slotDur) blockEnd
      else if overlapsAny existing current (current + slotDur) then
        slotWalk slotDur now existing fuel (current + slotDur) blockEnd
      else
        (current, current + slotDur)
          :: slotWalk slotDur now existing fuel (current + slotDur) blockEnd
    else []

/-- Fuel sufficient to unroll a block's walk when `slotDur ≥ 1`. -/
def blockFuel (slotDur openT closeT : Int) : Nat :=
  ((closeT - openT) / slotDur).toNat + 1

/-- `get_available_slots` (lines 96-175): default the business hours when
the table has no row for the weekday (empty on weekends, else 09:00-17:00),
keep open blocks, and walk each block collecting non-past, non-overlapping
slots. -/
def get_available_slots (slot_duration now dayStart : Int) (day_of_week : Nat)
    (bhRows : List BHBlock) (allBookings : List SlotBooking) : List (Int × Int) :=
  let rows := if bhRows.isEmpty then
      (if day_of_week ≥ 5 then [] else [⟨day_of_week, 9 * 60, 17 * 60, true⟩])
    else bhRows
  let open_blocks := rows.filter (fun r => r.is_open)
  let existing := existingOnDate allBookings dayStart
  open_blocks.foldl (fun acc block =>
    acc ++ slotWalk slot_duration now existing
      (blockFuel slot_duration block.open_time block.close_time)
      (dayStart + block.open_time) (dayStart + block.close_time)) []

/-- Concrete business-hours block for examples: Monday 09:00-11:00. -/
def exBlock : BHBlock := ⟨0, 540, 660, true⟩

/-- Concrete existing reservation for examples: 10:00-10:30, confirmed. -/
def exSlotBooking : SlotBooking := ⟨600, 630, "confirmed"⟩

/-! Template rendering (`AutomationEngine._render_template`, lines
417-423): a fold over the payload applying Python's `str.replace` for
each non-internal key's double-brace placeholder. -/

/-- The opening brace character. -/
def lbrace : Char := Char.ofNat 123

/-- The closing brace character. -/
def rbrace : Char := Char.ofNat 125

/-- Whether `pat` is an initial run of the second list. -/
def leadsWith : List Char → List Char → Bool
  | [], _ => true
  | _ :: _, [] => false
  | p :: ps, c :: cs => p == c && leadsWith ps cs

/-- Python `str.replace`, fuelled so that it is structural (the fuel is
one unit per character of the scanned string; `replaceList` below always
supplies enough): scan left to right, replacing non-overlapping
occurrences of `pat`. -/
def replaceGo (pat rep : List Char) : Nat → List Char → List Char
  | 0, s => s
  | fuel + 1, s =>
    match s with
    | [] => []
    | c :: tl =>
      if pat ≠ [] ∧ leadsWith pat (c :: tl) = true then
        rep ++ replaceGo pat rep fuel ((c :: tl).drop pat.length)
      else c :: replaceGo pat rep fuel tl

/-- Python `s.replace(pat, rep)` on char lists. (For the empty pattern
Python interleaves `rep` between characters; the source only ever calls
replace with the non-empty pattern of a double-brace placeholder, where
this model is exact.) -/
def replaceList (pat rep s : List Char) : List Char :=
  replaceGo pat rep s.length s

/-- The placeholder pattern the engine builds for a key: two opening
braces, the key, two closing braces. -/
def patFor (k : String) : List Char :=
  lbrace :: lbrace :: (k.data ++ [rbrace, rbrace])

/-- `AutomationEngine._render_template`: fold over the payload in
iteration order, skipping internal-marker keys, replacing within the
accumulated result. -/
def render_template (template : String) (payload : List (String × String)) : String :=
  payload.foldl (fun result kv =>
    if startsUnderscore kv.1 then result
    else String.mk (replaceList (patFor kv.1) kv.2.data result.data)) template

/-- The same fold on the underlying character list. -/
def renderData (t : List Char) (payload : List (String × String)) : List Char :=
  payload.foldl (fun r kv =>
    if startsUnderscore kv.1 then r
    else replaceList (patFor kv.1) kv.2.data r) t

/-- A template split into literal chunks and double-brace placeholders;
`flatten` recovers the template string's characters. -/
inductive Tok where
  | lit (chunk : List Char)
  | hole (key : String)
deriving DecidableEq

/-- The character list a token list denotes. -/
def flatten : List Tok → List Char
  | [] => []
  | .lit c :: tl => c ++ flatten tl
  | .hole k :: tl => patFor k ++ flatten tl

/-- No brace character occurs in the list. -/
def braceFree (s : List Char) : Bool :=
  s.all (fun c => !(c == lbrace) && !(c == rbrace))

/-- A well-formed placeholder key: non-empty and brace-free. -/
def goodKey (k : String) : Bool := !k.data.isEmpty && braceFree k.data

/-- Well-formed token: literal chunks brace-free, keys good. -/
def wfTok : Tok → Bool
  | .lit c => braceFree c
  | .hole k => goodKey k

/-- Well-formed template token list. -/
def wfToks (toks : List Tok) : Bool := toks.all wfTok

/-- Well-formed payload: non-internal keys are good keys, values are
brace-free. -/
def wfPayload (payload : List (String × String)) : Bool :=
  payload.all (fun kv =>
    (startsUnderscore kv.1 || goodKey kv.1) && braceFree kv.2.data)

/-- Replace the holes of one key by a literal value. -/
def holeSubst (k : String) (v : List Char) : Tok → Tok
  | .lit c => .lit c
  | .hole k' => if k' == k then .lit v else .hole k'

/-- The value a placeholder key receives from the payload: the first
non-internal entry with that key (the first one processed replaces every
occurrence of the placeholder, so later duplicates find nothing). -/
def lookupRender (payload : List (String × String)) (k : String) : Option String :=
  dictGet (payload.filter (fun kv => !startsUnderscore kv.1)) k

/-- One placeholder under simultaneous substitution: replaced by its
payload value when a matching non-internal key exists, else left
verbatim. -/
def substTok (payload : List (String × String)) : Tok → Tok
  | .lit c => .lit c
  | .hole k =>
    match lookupRender payload k with
    | some v => .lit v.data
    | none => .hole k

/-- Simultaneous substitution of the original template: every placeholder
replaced (or kept) in one pass over the original token list, inserted
values never re-scanned. -/
def simultaneousSubst (toks : List Tok) (payload : List (String × String)) : List Char :=
  flatten (toks.map (substTok payload))

/-- Matches starting inside `chunk` (of a scan of `chunk ++ X`): the
proposition that none exists. -/
def noStarts (pat X : List Char) : List Char → Prop
  | [] => True
  | c :: tl => leadsWith pat ((c :: tl) ++ X) = false ∧ noStarts pat X tl

end CareOps

namespace CareOps

theorem dictGet_dictInsert_self (d : List (String × String)) (k v : String) :
    dictGet (dictInsert d k v) k = some v := by
  induction d with
  | nil => simp [dictGet, dictInsert]
  | cons kv tl ih =>
    by_cases h : kv.1 = k
    · simp [dictInsert, dictGet, h]
    · simp [dictInsert, dictGet, h, ih]

theorem dictGet_dictInsert_other (d : List (String × String)) (k v k' : String)
    (h : k' ≠ k) : dictGet (dictInsert d k v) k' = dictGet d k' := by
  induction d with
  | nil => simp [dictGet, dictInsert, Ne.symm h]
  | cons kv tl ih =>
    by_cases hk : kv.1 = k
    · subst hk
      simp [dictInsert, dictGet, Ne.symm h]
    · simp [dictInsert, dictGet, hk, ih]

theorem dictInsert_of_dictGet (d : List (String × String)) (k v : String)
    (h : dictGet d k = some v) : dictInsert d k v = d := by
  induction d with
  | nil => simp [dictGet] at h
  | cons kv tl ih =>
    obtain ⟨a, b⟩ := kv
    by_cases hk : a = k
    · simp only [dictGet, beq_iff_eq, hk, if_true, Option.some_inj] at h
      simp [dictInsert, hk, h]
    · simp only [dictGet, beq_iff_eq, hk, if_false] at h
      simp [dictInsert, hk, ih h]

/-- C1: an illegal (from, to) pair makes `transition` raise
`InvalidTransition` carrying the rejected pair and the allowed set, with
the stored table unchanged. -/
theorem C1_invalid_transition_no_write
    (sideEffects : BookingRow → BookingStatus → BookingStatus → List (String × String))
    (store : List BookingRow) (booking_id workspace_id : Nat)
    (current_status target_status : BookingStatus) (notes : Option String)
    (h : target_status ∉ VALID_TRANSITIONS current_status) :
    transition sideEffects store booking_id workspace_id current_status target_status notes
      = (store, .error (.invalid ⟨current_status, target_status, VALID_TRANSITIONS current_status⟩)) := by
  simp [transition, validate_transition, h]

/-- Witness for C1 at a concrete illegal pair (completed → confirmed). -/
theorem C1_invalid_transition_no_write_witness :
    BookingStatus.confirmed ∉ VALID_TRANSITIONS .completed ∧
    transition (fun _ _ _ => []) [⟨7, 1, "completed", none⟩] 7 1 .completed .confirmed none
      = ([⟨7, 1, "completed", none⟩],
         .error (.invalid ⟨.completed, .confirmed, VALID_TRANSITIONS .completed⟩)) :=
  ⟨by decide,
   C1_invalid_transition_no_write (fun _ _ _ => []) [⟨7, 1, "completed", none⟩] 7 1
     .completed .confirmed none (by decide)⟩

/-- C7: the three terminal statuses have empty allowed sets, and every
transition attempt out of a terminal status raises `InvalidTransition`. -/
theorem C7_terminal_statuses_closed :
    (VALID_TRANSITIONS .completed = [] ∧ VALID_TRANSITIONS .cancelled = [] ∧
      VALID_TRANSITIONS .noShow = []) ∧
    (∀ (sideEffects : BookingRow → BookingStatus → BookingStatus → List (String × String))
      (store : List BookingRow) (booking_id workspace_id : Nat)
      (fr target_status : BookingStatus) (notes : Option String),
      (fr = .completed ∨ fr = .cancelled ∨ fr = .noShow) →
      (transition sideEffects store booking_id workspace_id fr target_status notes).2
        = .error (.invalid ⟨fr, target_status, []⟩)) := by
  refine ⟨⟨rfl, rfl, rfl⟩, ?_⟩
  intro sideEffects store booking_id workspace_id fr target_status notes h
  rcases h with h | h | h <;> subst h <;>
    simp [transition, validate_transition, VALID_TRANSITIONS]

/-- Witness for C7 at a concrete terminal status. -/
theorem C7_terminal_statuses_closed_witness :
    (VALID_TRANSITIONS .completed = [] ∧ VALID_TRANSITIONS .cancelled = [] ∧
      VALID_TRANSITIONS .noShow = []) ∧
    (transition (fun _ _ _ => []) [] 3 4 .cancelled .pending none).2
      = .error (.invalid ⟨.cancelled, .pending, []⟩) :=
  ⟨C7_terminal_statuses_closed.1,
   C7_terminal_statuses_closed.2 (fun _ _ _ => []) [] 3 4 .cancelled .pending none
     (Or.inr (Or.inl rfl))⟩

theorem fireStep_foldl (execRule : AutomationRule → List (String × String) → Except String (List (String × String)))
    (p : List (String × String)) (l : List AutomationRule) (a b : List LogEntry) :
    l.foldl (fireStep execRule p) (a, b)
      = (a ++ (loopLogs execRule p l).filter (fun lg => lg.status == "success"),
         b ++ loopLogs execRule p l) := by
  induction l generalizing a b with
  | nil => simp [loopLogs]
  | cons r tl ih =>
    by_cases hs : ruleSkipped r p
    · simp [fireStep, hs, ih, loopLogs]
    · cases hex : execRule r p with
      | ok result =>
        simp [List.foldl_cons, fireStep, hs, hex, ih, loopLogs, expectedLog,
          log_execution]
      | error e =>
        simp [List.foldl_cons, fireStep, hs, hex, ih, loopLogs, expectedLog,
          log_execution]

/-- C2 (amended): when the pause gate does not return early, the rule loop
of `fire_trigger` inserts into `automation_logs` exactly one row per
executed (matching, non-skipped) rule, in order and with outcome
`success` or `error` — so one rule failing blocks neither the remaining
rules nor the call itself (`fire_trigger` is a total function). The list
the call RETURNS is the sublist of successful rows only; failure rows are
persisted but not returned. -/
theorem C2_per_rule_logging (isPaused : String → String → Bool)
    (execRule : AutomationRule → List (String × String) → Except String (List (String × String)))
    (rules : List AutomationRule) (workspace_id trigger : String)
    (payload : List (String × String))
    (hGate : gateBlocked isPaused workspace_id payload = false) :
    (fire_trigger isPaused execRule rules workspace_id trigger payload).db_logs
        = loopLogs execRule (dictInsert payload "_workspace_id" workspace_id)
            (matchedRules rules workspace_id trigger)
    ∧ (∀ lg ∈ (fire_trigger isPaused execRule rules workspace_id trigger payload).db_logs,
        lg.status = "success" ∨ lg.status = "error")
    ∧ (fire_trigger isPaused execRule rules workspace_id trigger payload).results
        = ((fire_trigger isPaused execRule rules workspace_id trigger payload).db_logs).filter
            (fun lg => lg.status == "success") := by
  have hfold := fireStep_foldl execRule (dictInsert payload "_workspace_id" workspace_id)
    (matchedRules rules workspace_id trigger) [] []
  refine ⟨?_, ?_, ?_⟩
  · simp [fire_trigger, hGate, hfold]
  · intro lg hmem
    simp only [fire_trigger, hGate, Bool.false_eq_true, if_false, hfold,
      List.nil_append] at hmem
    simp only [loopLogs, List.mem_map, List.mem_filter] at hmem
    obtain ⟨r, _, hr⟩ := hmem
    cases hex : execRule r (dictInsert payload "_workspace_id" workspace_id) with
    | ok result => left; rw [← hr]; simp [expectedLog, hex, log_execution]
    | error e => right; rw [← hr]; simp [expectedLog, hex, log_execution]
  · simp [fire_trigger, hGate, hfold]

/-- Witness for C2 (amended): two matching rules, the second raises; both
are logged, only the successful one is returned. -/
theorem C2_per_rule_logging_witness :
    gateBlocked (fun _ _ => false) "w1" [("contact_email", "x@y.z")] = false
    ∧ ((fire_trigger (fun _ _ => false) exExec [exRuleA, exRuleB] "w1" "new_lead"
          [("contact_email", "x@y.z")]).db_logs
        = loopLogs exExec
            (dictInsert [("contact_email", "x@y.z")] "_workspace_id" "w1")
            (matchedRules [exRuleA, exRuleB] "w1" "new_lead")
      ∧ (∀ lg ∈ (fire_trigger (fun _ _ => false) exExec [exRuleA, exRuleB] "w1" "new_lead"
            [("contact_email", "x@y.z")]).db_logs,
          lg.status = "success" ∨ lg.status = "error")
      ∧ (fire_trigger (fun _ _ => false) exExec [exRuleA, exRuleB] "w1" "new_lead"
            [("contact_email", "x@y.z")]).results
          = ((fire_trigger (fun _ _ => false) exExec [exRuleA, exRuleB] "w1" "new_lead"
              [("contact_email", "x@y.z")]).db_logs).filter
              (fun lg => lg.status == "success")) :=
  ⟨by decide,
   C2_per_rule_logging (fun _ _ => false) exExec [exRuleA, exRuleB] "w1" "new_lead"
     [("contact_email", "x@y.z")] (by decide)⟩

/-- Counterexample to C2 as stated: with two matching rules of which the
second raises, both rules execute (two rows inserted, statuses `success`
then `error`) but the returned list has a single entry, so it does not
contain one log entry per executed rule and the failure cannot be
inspected from it. -/
theorem C2_counterexample :
    ((fire_trigger (fun _ _ => false) exExec [exRuleA, exRuleB] "w1" "new_lead"
        [("contact_email", "x@y.z")]).db_logs).map (fun lg => lg.status)
      = ["success", "error"]
    ∧ ((fire_trigger (fun _ _ => false) exExec [exRuleA, exRuleB] "w1" "new_lead"
        [("contact_email", "x@y.z")]).results).length = 1 := by
  decide

/-- C9 (amended): any call that passes the pause gate mutates the
caller-supplied payload map: `_workspace_id` is inserted before the rule
loop, is still present afterwards, and no other key's binding changes. -/
theorem C9_payload_mutation (isPaused : String → String → Bool)
    (execRule : AutomationRule → List (String × String) → Except String (List (String × String)))
    (rules : List AutomationRule) (workspace_id trigger : String)
    (payload : List (String × String))
    (hGate : gateBlocked isPaused workspace_id payload = false) :
    (fire_trigger isPaused execRule rules workspace_id trigger payload).payload
        = dictInsert payload "_workspace_id" workspace_id
    ∧ dictGet (fire_trigger isPaused execRule rules workspace_id trigger payload).payload
        "_workspace_id" = some workspace_id
    ∧ ∀ k, k ≠ "_workspace_id" →
        dictGet (fire_trigger isPaused execRule rules workspace_id trigger payload).payload k
          = dictGet payload k := by
  have hp : (fire_trigger isPaused execRule rules workspace_id trigger payload).payload
      = dictInsert payload "_workspace_id" workspace_id := by
    simp [fire_trigger, hGate]
  refine ⟨hp, ?_, ?_⟩
  · rw [hp]; exact dictGet_dictInsert_self payload "_workspace_id" workspace_id
  · intro k hk
    rw [hp]
    exact dictGet_dictInsert_other payload "_workspace_id" workspace_id k hk

/-- Witness for C9 (amended) on a concrete non-gated call. -/
theorem C9_payload_mutation_witness :
    gateBlocked (fun _ _ => false) "w1" [("contact_id", "c1")] = false
    ∧ ("contact_id" : String) ≠ "_workspace_id"
    ∧ ((fire_trigger (fun _ _ => false) exExec [exRuleA] "w1" "new_lead"
          [("contact_id", "c1")]).payload
        = dictInsert [("contact_id", "c1")] "_workspace_id" "w1"
      ∧ dictGet (fire_trigger (fun _ _ => false) exExec [exRuleA] "w1" "new_lead"
          [("contact_id", "c1")]).payload "_workspace_id" = some "w1")
    ∧ dictGet (fire_trigger (fun _ _ => false) exExec [exRuleA] "w1" "new_lead"
        [("contact_id", "c1")]).payload "contact_id"
      = dictGet [("contact_id", "c1")] "contact_id" :=
  ⟨by decide, by decide,
   ⟨(C9_payload_mutation (fun _ _ => false) exExec [exRuleA] "w1" "new_lead"
       [("contact_id", "c1")] (by decide)).1,
    (C9_payload_mutation (fun _ _ => false) exExec [exRuleA] "w1" "new_lead"
       [("contact_id", "c1")] (by decide)).2.1⟩,
   (C9_payload_mutation (fun _ _ => false) exExec [exRuleA] "w1" "new_lead"
       [("contact_id", "c1")] (by decide)).2.2 "contact_id" (by decide)⟩

/-- Counterexample to C9 as stated: a call gated by the pause check (the
payload names a paused contact) returns with the caller's map untouched —
no `_workspace_id` key is present after the call. -/
theorem C9_counterexample :
    (fire_trigger (fun _ _ => true) exExec [exRuleA] "w1" "new_lead"
        [("contact_id", "c1")]).payload = [("contact_id", "c1")]
    ∧ dictGet (fire_trigger (fun _ _ => true) exExec [exRuleA] "w1" "new_lead"
        [("contact_id", "c1")]).payload "_workspace_id" = none := by
  decide

theorem markReminded_idem (now : Int) (b : BookingRec) :
    markReminded now (markReminded now b) = markReminded now b := by
  have h1 : dictGet (dictInsert (dictInsert b.metadata "reminder_sent" "true")
      "reminder_sent_at" (fmtInstant now)) "reminder_sent" = some "true" := by
    rw [dictGet_dictInsert_other _ _ _ _ (by decide)]
    exact dictGet_dictInsert_self _ _ _
  have h2 := dictGet_dictInsert_self (dictInsert b.metadata "reminder_sent" "true")
    "reminder_sent_at" (fmtInstant now)
  simp [markReminded, dictInsert_of_dictGet _ _ _ h1, dictInsert_of_dictGet _ _ _ h2]

theorem remStep_foldl_snd (pq : String → String → Bool) (fk : FiredEvent → Bool)
    (now : Int) (l : List BookingRec) (acc : List BookingRec × List FiredEvent) :
    (l.foldl (remStep pq fk now) acc).2
      = acc.2 ++ (l.filter (bookingEligible pq)).map reminderEvent := by
  induction l generalizing acc with
  | nil => simp
  | cons b tl ih =>
    by_cases he : bookingEligible pq b
    · by_cases hf : fk (reminderEvent b)
      · simp [remStep, he, hf, ih]
      · simp [remStep, he, hf, ih]
    · simp [remStep, he, ih]

theorem remStep_foldl_fst (pq : String → String → Bool) (fk : FiredEvent → Bool)
    (now : Int) (l : List BookingRec) (cur : List BookingRec) (evs : List FiredEvent) :
    (l.foldl (remStep pq fk now) (cur, evs)).1
      = cur.map (fun r =>
          if l.any (fun b => bookingEligible pq b && fk (reminderEvent b) && b.id == r.id)
          then markReminded now r else r) := by
  induction l generalizing cur evs with
  | nil => simp
  | cons b tl ih =>
    by_cases he : bookingEligible pq b
    · by_cases hf : fk (reminderEvent b)
      · have hstep : remStep pq fk now (cur, evs) b
            = (cur.map (fun r => if r.id == b.id then markReminded now r else r),
               evs ++ [reminderEvent b]) := by
          simp [remStep, he, hf]
        rw [List.foldl_cons, hstep, ih, List.map_map]
        apply List.map_congr_left
        intro r _
        by_cases hid : r.id = b.id
        · by_cases hany : tl.any
              (fun b' => bookingEligible pq b' && fk (reminderEvent b') && b'.id == r.id)
          · simp only [Function.comp_apply, hid, beq_self_eq_true, if_true]
            have hany' : tl.any (fun b' => bookingEligible pq b' && fk (reminderEvent b')
                && b'.id == (markReminded now r).id) = true := by
              simpa [markReminded] using hany
            simp [hany', markReminded_idem, List.any_cons, he, hf, hid, hany]
          · simp only [Function.comp_apply, hid, beq_self_eq_true, if_true]
            have hany' : tl.any (fun b' => bookingEligible pq b' && fk (reminderEvent b')
                && b'.id == (markReminded now r).id) = false := by
              simpa [markReminded] using hany
            simp [hany', List.any_cons, he, hf, hid]
        · have hid' : (b.id == r.id) = false := by
            simp [Ne.symm hid]
          simp only [Function.comp_apply, beq_iff_eq, hid, if_false, List.any_cons,
            hid', Bool.and_false, Bool.false_or]
      · have hstep : remStep pq fk now (cur, evs) b = (cur, evs ++ [reminderEvent b]) := by
          simp [remStep, he, hf]
        rw [List.foldl_cons, hstep, ih]
        apply List.map_congr_left
        intro r _
        simp [List.any_cons, hf]
    · have hstep : remStep pq fk now (cur, evs) b = (cur, evs) := by
        simp [remStep, he]
      rw [List.foldl_cons, hstep, ih]
      apply List.map_congr_left
      intro r _
      simp [List.any_cons, he]

/-- C5 (amended): on a tick, a `booking_reminder` event is fired exactly
for the confirmed reservations whose start lies in the CLOSED window
from `now` to `now + 24h` (both `gte` and `lte` in the source), that carry
no truthy reminder-sent marker, have a contact email, and whose contact's
conversation is not automation-paused; and the bookings table afterwards
carries the reminder-sent marker exactly on the rows whose id matches such
a fired reservation whose engine call succeeded. -/
theorem C5_booking_reminder_tick (pq : String → String → Bool)
    (fk : FiredEvent → Bool) (now : Int) (db : List BookingRec) :
    (check_booking_reminders pq fk now db).2
      = ((db.filter (inReminderWindow now)).filter (bookingEligible pq)).map reminderEvent
    ∧ (check_booking_reminders pq fk now db).1
      = db.map (fun r =>
          if (db.filter (inReminderWindow now)).any
              (fun b => bookingEligible pq b && fk (reminderEvent b) && b.id == r.id)
          then markReminded now r else r) := by
  constructor
  · rw [check_booking_reminders, remStep_foldl_snd]
    simp
  · rw [check_booking_reminders, remStep_foldl_fst]

/-- Counterexample to C5 as stated: a confirmed, unreminded, reachable
reservation starting exactly at `now + 24h` — outside the claimed
half-open window — still gets a reminder fired on the tick. -/
theorem C5_counterexample :
    ¬ (exBooking.starts_at < 0 + 86400)
    ∧ (check_booking_reminders (fun _ _ => false) (fun _ => true) 0 [exBooking]).2
      = [reminderEvent exBooking] := by
  decide

/-- C3: the pending-form scan checks the `form_reminder_sent` marker but
nothing ever writes it, so the very same log entry is selected and fired
again on the next tick — the reminder is not at-most-once across ticks.
Evaluated here: two consecutive ticks over one qualifying log entry each
fire a reminder for it, the log table being unchanged in between. -/
theorem C3_form_reminder_refires :
    (check_pending_form_reminders (fun _ _ => false) 100000 [exFormLog] []).2
      = [formReminderEvent exFormLog]
    ∧ (check_pending_form_reminders (fun _ _ => false) 100000 [exFormLog] []).1
      = [exFormLog]
    ∧ (check_pending_form_reminders (fun _ _ => false) 100060
        (check_pending_form_reminders (fun _ _ => false) 100000 [exFormLog] []).1 []).2
      = [formReminderEvent exFormLog] := by
  decide

theorem slotWalk_mem (slotDur now : Int) (existing : List SlotBooking) :
    ∀ (fuel : Nat) (current blockEnd : Int) (s : Int × Int),
      s ∈ slotWalk slotDur now existing fuel current blockEnd →
      overlapsAny existing s.1 s.2 = false ∧ ¬ s.1 < now := by
  intro fuel
  induction fuel with
  | zero =>
    intro current blockEnd s h
    simp [slotWalk] at h
  | succ n ih =>
    intro current blockEnd s h
    rw [slotWalk] at h
    by_cases h1 : current + slotDur ≤ blockEnd
    · rw [if_pos h1] at h
      by_cases h2 : current < now
      · rw [if_pos h2] at h
        exact ih _ _ _ h
      · rw [if_neg h2] at h
        cases h3 : overlapsAny existing current (current + slotDur) with
        | true =>
          rw [h3] at h
          simp only [if_true] at h
          exact ih _ _ _ h
        | false =>
          rw [h3] at h
          simp only [Bool.false_eq_true, if_false, List.mem_cons] at h
          rcases h with h | h
          · subst h
            exact ⟨h3, h2⟩
          · exact ih _ _ _ h
    · rw [if_neg h1] at h
      simp at h

theorem mem_foldl_append {α β : Type} (f : β → List α) (l : List β) (acc : List α)
    (x : α) :
    x ∈ l.foldl (fun a bl => a ++ f bl) acc ↔ x ∈ acc ∨ ∃ bl ∈ l, x ∈ f bl := by
  induction l generalizing acc with
  | nil => simp
  | cons b tl ih =>
    rw [List.foldl_cons, ih]
    simp [or_assoc, List.mem_append]

/-- C4: a computed slot never overlaps an existing non-cancelled
reservation starting on the target date, under the half-open overlap test
of the source. -/
theorem C4_slots_no_overlap (slot_duration now dayStart : Int) (day_of_week : Nat)
    (bhRows : List BHBlock) (allBookings : List SlotBooking) (s : Int × Int)
    (hs : s ∈ get_available_slots slot_duration now dayStart day_of_week bhRows allBookings)
    (b : SlotBooking) (hb : b ∈ allBookings)
    (hd1 : dayStart ≤ b.starts_at) (hd2 : b.starts_at < dayStart + 1440)
    (hc : b.status ≠ "cancelled") :
    ¬ (s.1 < b.ends_at ∧ s.2 > b.starts_at) := by
  rw [get_available_slots, mem_foldl_append] at hs
  rcases hs with hs | ⟨block, _, hs⟩
  · simp at hs
  · have hover := (slotWalk_mem slot_duration now
      (existingOnDate allBookings dayStart) _ _ _ s hs).1
    have hbmem : b ∈ existingOnDate allBookings dayStart := by
      simp [existingOnDate, List.mem_filter, hb, hd1, hd2, hc]
    rw [overlapsAny, List.any_eq_false] at hover
    have := hover b hbmem
    simp only [Bool.and_eq_true, decide_eq_true_eq] at this
    intro hcon
    exact this ⟨hcon.1, hcon.2⟩

/-- Witness for C4 on a concrete day: the 09:00 slot and a 10:00-10:30
confirmed reservation. -/
theorem C4_slots_no_overlap_witness :
    (((540 : Int), (570 : Int)) ∈ get_available_slots 30 0 0 0 [exBlock] [exSlotBooking]
      ∧ exSlotBooking ∈ [exSlotBooking]
      ∧ (0 : Int) ≤ exSlotBooking.starts_at
      ∧ exSlotBooking.starts_at < 0 + 1440
      ∧ exSlotBooking.status ≠ "cancelled")
    ∧ ¬ (((540 : Int), (570 : Int)).1 < exSlotBooking.ends_at
        ∧ ((540 : Int), (570 : Int)).2 > exSlotBooking.starts_at) :=
  ⟨⟨by decide, by decide, by decide, by decide, by decide⟩,
   C4_slots_no_overlap 30 0 0 0 [exBlock] [exSlotBooking] (540, 570) (by decide)
     exSlotBooking (by decide) (by decide) (by decide) (by decide)⟩

/-- C8: a computed slot never starts strictly before the evaluation
instant. -/
theorem C8_slots_not_past (slot_duration now dayStart : Int) (day_of_week : Nat)
    (bhRows : List BHBlock) (allBookings : List SlotBooking) (s : Int × Int)
    (hs : s ∈ get_available_slots slot_duration now dayStart day_of_week bhRows allBookings) :
    ¬ s.1 < now := by
  rw [get_available_slots, mem_foldl_append] at hs
  rcases hs with hs | ⟨block, _, hs⟩
  · simp at hs
  · exact (slotWalk_mem slot_duration now
      (existingOnDate allBookings dayStart) _ _ _ s hs).2

/-- Witness for C8: with `now` at 09:20, the first surviving slot starts
09:30, not before `now`. -/
theorem C8_slots_not_past_witness :
    ((570 : Int), (600 : Int)) ∈ get_available_slots 30 560 0 0 [exBlock] [exSlotBooking]
    ∧ ¬ ((570 : Int), (600 : Int)).1 < 560 :=
  ⟨by decide,
   C8_slots_not_past 30 560 0 0 [exBlock] [exSlotBooking] (570, 600) (by decide)⟩

theorem replaceGo_fuel (pat rep : List Char) :
    ∀ (f₁ : Nat) (s : List Char) (f₂ : Nat), s.length ≤ f₁ → s.length ≤ f₂ →
      replaceGo pat rep f₁ s = replaceGo pat rep f₂ s := by
  intro f₁
  induction f₁ with
  | zero =>
    intro s f₂ h1 _
    have hs : s = [] := List.length_eq_zero.mp (Nat.le_zero.mp h1)
    subst hs
    cases f₂ <;> simp [replaceGo]
  | succ n ih =>
    intro s f₂ h1 h2
    cases s with
    | nil => cases f₂ <;> simp [replaceGo]
    | cons c tl =>
      cases f₂ with
      | zero => simp at h2
      | succ m =>
        simp only [replaceGo]
        by_cases hc : pat ≠ [] ∧ leadsWith pat (c :: tl) = true
        · rw [if_pos hc, if_pos hc]
          congr 1
          have hp : 0 < pat.length := List.length_pos.mpr hc.1
          apply ih
          · simp only [List.length_drop, List.length_cons]
            simp only [List.length_cons] at h1
            omega
          · simp only [List.length_drop, List.length_cons]
            simp only [List.length_cons] at h2
            omega
        · rw [if_neg hc, if_neg hc]
          congr 1
          apply ih
          · simp only [List.length_cons] at h1; omega
          · simp only [List.length_cons] at h2; omega

theorem replaceList_nil (pat rep : List Char) : replaceList pat rep [] = [] := rfl

theorem replaceList_cons (pat rep : List Char) (c : Char) (tl : List Char) :
    replaceList pat rep (c :: tl)
      = if pat ≠ [] ∧ leadsWith pat (c :: tl) = true then
          rep ++ replaceList pat rep ((c :: tl).drop pat.length)
        else c :: replaceList pat rep tl := by
  show replaceGo pat rep (tl.length + 1) (c :: tl) = _
  simp only [replaceGo]
  by_cases hc : pat ≠ [] ∧ leadsWith pat (c :: tl) = true
  · rw [if_pos hc, if_pos hc]
    congr 1
    have hp : 0 < pat.length := List.length_pos.mpr hc.1
    apply replaceGo_fuel
    · simp only [List.length_drop, List.length_cons]; omega
    · exact Nat.le_refl _
  · rw [if_neg hc, if_neg hc]
    rfl

theorem noStarts_shield (pat rep X : List Char) :
    ∀ (chunk : List Char), noStarts pat X chunk →
      replaceList pat rep (chunk ++ X) = chunk ++ replaceList pat rep X := by
  intro chunk
  induction chunk with
  | nil => intro _; simp
  | cons c tl ih =>
    intro h
    obtain ⟨h1, h2⟩ := h
    rw [List.cons_append, replaceList_cons, if_neg, ih h2]
    · rfl
    · intro hcon
      rw [List.cons_append] at h1
      rw [h1] at hcon
      exact absurd hcon.2 (by simp)

theorem leadsWith_append_self (pat t : List Char) : leadsWith pat (pat ++ t) = true := by
  induction pat with
  | nil => simp [leadsWith]
  | cons p ps ih => simp [leadsWith, ih]

theorem leadsWith_head_ne (p c : Char) (ps cs : List Char) (h : p ≠ c) :
    leadsWith (p :: ps) (c :: cs) = false := by
  simp [leadsWith, h]

theorem replaceList_pat_head (pat rep : List Char) (hpat : pat ≠ []) (F : List Char) :
    replaceList pat rep (pat ++ F) = rep ++ replaceList pat rep F := by
  cases pat with
  | nil => exact absurd rfl hpat
  | cons p ps =>
    rw [List.cons_append, replaceList_cons, if_pos]
    · congr 1
      have hd : (p :: (ps ++ F)).drop (p :: ps).length = F :=
        List.drop_left (p :: ps) F
      rw [hd]
    · refine ⟨by simp, ?_⟩
      simpa using leadsWith_append_self (p :: ps) F

theorem braceFree_cons {c : Char} {tl : List Char} (h : braceFree (c :: tl) = true) :
    c ≠ lbrace ∧ c ≠ rbrace ∧ braceFree tl = true := by
  simp only [braceFree, List.all_cons, Bool.and_eq_true, Bool.not_eq_true',
    beq_eq_false_iff_ne] at h
  exact ⟨h.1.1, h.1.2, h.2⟩

theorem leadsWith_key_clash (X : List Char) :
    ∀ (a b : List Char), braceFree a = true → braceFree b = true → a ≠ b →
      leadsWith (a ++ [rbrace, rbrace]) (b ++ rbrace :: rbrace :: X) = false := by
  intro a
  induction a with
  | nil =>
    intro b _ hb hne
    cases b with
    | nil => exact absurd rfl hne
    | cons y b' =>
      have hy := braceFree_cons hb
      simp only [List.nil_append, List.cons_append]
      exact leadsWith_head_ne _ _ _ _ (Ne.symm hy.2.1)
  | cons x a' ih =>
    intro b ha hb hne
    have hx := braceFree_cons ha
    cases b with
    | nil =>
      simp only [List.nil_append, List.cons_append]
      exact leadsWith_head_ne _ _ _ _ hx.2.1
    | cons y b' =>
      have hy := braceFree_cons hb
      by_cases hxy : x = y
      · subst hxy
        simp only [List.cons_append, leadsWith, beq_self_eq_true, Bool.true_and]
        exact ih b' hx.2.2 hy.2.2 (fun he => hne (by rw [he]))
      · simp only [List.cons_append]
        exact leadsWith_head_ne _ _ _ _ hxy

theorem goodKey_parts {k : String} (h : goodKey k = true) :
    k.data ≠ [] ∧ braceFree k.data = true := by
  simp only [goodKey, Bool.and_eq_true, Bool.not_eq_true', List.isEmpty_eq_false] at h
  exact h

theorem leadsWith_patFor_ne (k k' : String) (hk : goodKey k = true)
    (hk' : goodKey k' = true) (hne : k ≠ k') (X : List Char) :
    leadsWith (patFor k) (patFor k' ++ X) = false := by
  have hdata : k.data ≠ k'.data := fun h => hne (String.ext h)
  simp only [patFor, List.cons_append, leadsWith, beq_self_eq_true, Bool.true_and]
  have hassoc : (k'.data ++ [rbrace, rbrace]) ++ X = k'.data ++ (rbrace :: rbrace :: X) :=
    List.append_assoc _ _ _
  show leadsWith (k.data ++ [rbrace, rbrace]) ((k'.data ++ [rbrace, rbrace]) ++ X) = false
  rw [hassoc]
  exact leadsWith_key_clash X k.data k'.data (goodKey_parts hk).2 (goodKey_parts hk').2 hdata

theorem noStarts_of_braceFree (pat' X : List Char) :
    ∀ (chunk : List Char), braceFree chunk = true → noStarts (lbrace :: pat') X chunk := by
  intro chunk
  induction chunk with
  | nil => intro _; trivial
  | cons c tl ih =>
    intro h
    have hc := braceFree_cons h
    refine ⟨?_, ih hc.2.2⟩
    rw [List.cons_append]
    exact leadsWith_head_ne _ _ _ _ (Ne.symm hc.1)

theorem noStarts_append (pat X : List Char) :
    ∀ (c₁ c₂ : List Char), noStarts pat X (c₁ ++ c₂) ↔
      noStarts pat (c₂ ++ X) c₁ ∧ noStarts pat X c₂ := by
  intro c₁
  induction c₁ with
  | nil => intro c₂; simp [noStarts]
  | cons a tl ih =>
    intro c₂
    simp only [List.cons_append, noStarts, List.append_eq, ih c₂, List.append_assoc,
      and_assoc]

theorem noStarts_rr (pat' X : List Char) : noStarts (lbrace :: pat') X [rbrace, rbrace] := by
  refine ⟨?_, ?_, trivial⟩
  · exact leadsWith_head_ne _ _ _ _ (by decide)
  · exact leadsWith_head_ne _ _ _ _ (by decide)

theorem noStarts_hole (k k' : String) (hk : goodKey k = true) (hk' : goodKey k' = true)
    (hne : k ≠ k') (X : List Char) : noStarts (patFor k) X (patFor k') := by
  have h2 : noStarts (patFor k) X (k'.data ++ [rbrace, rbrace]) := by
    rw [show patFor k = lbrace :: (lbrace :: (k.data ++ [rbrace, rbrace])) from rfl]
    rw [noStarts_append]
    exact ⟨noStarts_of_braceFree _ _ _ (goodKey_parts hk').2, noStarts_rr _ _⟩
  show noStarts (patFor k) X (lbrace :: lbrace :: (k'.data ++ [rbrace, rbrace]))
  refine ⟨?_, ?_, h2⟩
  · exact leadsWith_patFor_ne k k' hk hk' hne X
  · cases hd : k'.data with
    | nil => exact absurd hd (goodKey_parts hk').1
    | cons y ys =>
      have hy : braceFree (y :: ys) = true := by
        rw [← hd]; exact (goodKey_parts hk').2
      have hyy := braceFree_cons hy
      simp only [patFor, List.cons_append, leadsWith, beq_self_eq_true, Bool.true_and]
      have hby : (lbrace == y) = false := beq_eq_false_iff_ne.mpr (Ne.symm hyy.1)
      simp [hby]

theorem replaceList_flatten (k : String) (v : List Char) (hk : goodKey k = true) :
    ∀ (toks : List Tok), wfToks toks = true →
      replaceList (patFor k) v (flatten toks) = flatten (toks.map (holeSubst k v)) := by
  intro toks
  induction toks with
  | nil => intro _; rfl
  | cons t tl ih =>
    intro hwf
    have hsplit : wfTok t = true ∧ wfToks tl = true := by
      simp only [wfToks, List.all_cons, Bool.and_eq_true] at hwf
      exact hwf
    cases t with
    | lit c =>
      have hp : patFor k = lbrace :: (lbrace :: (k.data ++ [rbrace, rbrace])) := rfl
      show replaceList (patFor k) v (c ++ flatten tl)
        = c ++ flatten (tl.map (holeSubst k v))
      rw [hp, noStarts_shield _ _ _ _ (noStarts_of_braceFree _ _ _ hsplit.1), ← hp,
        ih hsplit.2]
    | hole k' =>
      by_cases hkk : k' = k
      · subst hkk
        show replaceList (patFor k') v (patFor k' ++ flatten tl) = _
        rw [replaceList_pat_head _ _ (by simp [patFor]) _, ih hsplit.2]
        simp [holeSubst, flatten]
      · show replaceList (patFor k) v (patFor k' ++ flatten tl) = _
        rw [noStarts_shield _ _ _ _
          (noStarts_hole k k' hk hsplit.1 (fun he => hkk he.symm) _), ih hsplit.2]
        simp [holeSubst, hkk, flatten]

theorem substTok_nil (t : Tok) : substTok [] t = t := by
  cases t <;> simp [substTok, lookupRender, dictGet]

theorem wfToks_holeSubst (k : String) (v : List Char) (hv : braceFree v = true) :
    ∀ (toks : List Tok), wfToks toks = true → wfToks (toks.map (holeSubst k v)) = true := by
  intro toks
  induction toks with
  | nil => intro _; rfl
  | cons t tl ih =>
    intro h
    simp only [wfToks, List.map_cons, List.all_cons, Bool.and_eq_true] at h ⊢
    refine ⟨?_, ih h.2⟩
    cases t with
    | lit c => simpa [holeSubst, wfTok] using h.1
    | hole k' =>
      by_cases hkk : k' = k
      · simp [holeSubst, hkk, wfTok, hv]
      · simpa [holeSubst, hkk, wfTok] using h.1

theorem lookupRender_underscore (k v : String) (rest : List (String × String))
    (hu : startsUnderscore k = true) (q : String) :
    lookupRender ((k, v) :: rest) q = lookupRender rest q := by
  simp [lookupRender, hu]

theorem lookupRender_cons_self (k v : String) (rest : List (String × String))
    (hu : startsUnderscore k = false) :
    lookupRender ((k, v) :: rest) k = some v := by
  simp [lookupRender, hu, dictGet]

theorem lookupRender_cons_ne (k v : String) (rest : List (String × String)) (q : String)
    (hu : startsUnderscore k = false) (hne : q ≠ k) :
    lookupRender ((k, v) :: rest) q = lookupRender rest q := by
  simp [lookupRender, hu, dictGet, Ne.symm hne]

theorem renderData_flatten :
    ∀ (payload : List (String × String)) (toks : List Tok),
      wfToks toks = true → wfPayload payload = true →
      renderData (flatten toks) payload = flatten (toks.map (substTok payload)) := by
  intro payload
  induction payload with
  | nil =>
    intro toks _ _
    have hmap : toks.map (substTok []) = toks := by
      rw [List.map_congr_left (fun t _ => substTok_nil t)]
      exact List.map_id' toks
    rw [hmap]
    rfl
  | cons kv rest ih =>
    intro toks hwf hp
    obtain ⟨k, v⟩ := kv
    have hps : ((startsUnderscore k || goodKey k) = true ∧ braceFree v.data = true)
        ∧ wfPayload rest = true := by
      simp only [wfPayload, List.all_cons, Bool.and_eq_true] at hp
      exact ⟨⟨hp.1.1, hp.1.2⟩, hp.2⟩
    by_cases hu : startsUnderscore k
    · have hstep : renderData (flatten toks) ((k, v) :: rest)
          = renderData (flatten toks) rest := by
        simp [renderData, hu]
      rw [hstep, ih toks hwf hps.2]
      congr 1
      apply List.map_congr_left
      intro t _
      cases t with
      | lit c => simp [substTok]
      | hole q => simp [substTok, lookupRender_underscore k v rest hu q]
    · have hu' : startsUnderscore k = false := by
        simpa using hu
      have hgk : goodKey k = true := by
        rcases (Bool.or_eq_true _ _).mp hps.1.1 with h | h
        · exact absurd h hu
        · exact h
      have hstep : renderData (flatten toks) ((k, v) :: rest)
          = renderData (flatten (toks.map (holeSubst k v.data))) rest := by
        simp only [renderData, List.foldl_cons, hu', Bool.false_eq_true, if_false]
        rw [replaceList_flatten k v.data hgk toks hwf]
      rw [hstep, ih _ (wfToks_holeSubst k v.data hps.1.2 toks hwf) hps.2, List.map_map]
      congr 1
      apply List.map_congr_left
      intro t _
      cases t with
      | lit c => simp [substTok, holeSubst]
      | hole q =>
        by_cases hkk : q = k
        · subst hkk
          simp [Function.comp, holeSubst, substTok, lookupRender_cons_self q v rest hu']
        · simp [Function.comp, holeSubst, hkk, substTok,
            lookupRender_cons_ne k v rest q hu' hkk]

theorem render_template_eq_renderData :
    ∀ (payload : List (String × String)) (t : String),
      render_template t payload = String.mk (renderData t.data payload) := by
  intro payload
  induction payload with
  | nil => intro t; rfl
  | cons kv rest ih =>
    intro t
    simp only [render_template, renderData, List.foldl_cons]
    by_cases hu : startsUnderscore kv.1
    · simp only [hu, if_true]
      exact ih t
    · simp only [hu, Bool.false_eq_true, if_false]
      exact ih (String.mk (replaceList (patFor kv.1) kv.2.data t.data))

/-- C6: template rendering is a pure function; over every well-formed
template (literal chunks and double-brace placeholders with non-empty,
brace-free keys) and payload (non-internal keys well-formed, values
brace-free), it replaces every placeholder whose key is present and not
internal-marker-prefixed by that key's value and leaves placeholders with
no matching key verbatim — i.e. it coincides with simultaneous
substitution; in particular the claim's concrete instance renders as
stated, and a placeholder with no matching key survives verbatim. -/
theorem C6_render_replaces_present_keys :
    (∀ (toks : List Tok) (payload : List (String × String)),
        wfToks toks = true → wfPayload payload = true →
        render_template (String.mk (flatten toks)) payload
          = String.mk (simultaneousSubst toks payload))
    ∧ render_template "\x7b\x7bbusiness_name\x7d\x7d Confirmed" [("business_name", "Acme")]
        = "Acme Confirmed"
    ∧ render_template "\x7b\x7bother_key\x7d\x7d Confirmed" [("business_name", "Acme")]
        = "\x7b\x7bother_key\x7d\x7d Confirmed" := by
  refine ⟨?_, by decide, by decide⟩
  intro toks payload hwf hp
  rw [render_template_eq_renderData]
  rw [show (String.mk (flatten toks)).data = flatten toks from rfl]
  rw [renderData_flatten payload toks hwf hp]
  rfl

/-- Witness for C6 at the claim's concrete instance, as a token template. -/
theorem C6_render_replaces_present_keys_witness :
    wfToks [Tok.hole "business_name", Tok.lit " Confirmed".data] = true
    ∧ wfPayload [("business_name", "Acme")] = true
    ∧ render_template
        (String.mk (flatten [Tok.hole "business_name", Tok.lit " Confirmed".data]))
        [("business_name", "Acme")]
      = String.mk (simultaneousSubst [Tok.hole "business_name", Tok.lit " Confirmed".data]
          [("business_name", "Acme")]) :=
  ⟨by decide, by decide,
   C6_render_replaces_present_keys.1 [Tok.hole "business_name", Tok.lit " Confirmed".data]
     [("business_name", "Acme")] (by decide) (by decide)⟩

/-- C10: rendering is sequential over the payload, replacing within the
accumulated result, so a substituted value is re-scanned for later keys'
placeholders: on the template holding just the placeholder of key `a`,
with payload `a` ↦ a text containing the placeholder of `b` and `b` ↦ "Z",
the code renders "Z", while simultaneous substitution of the original
template leaves the inserted placeholder text alone — the outputs
differ. -/
theorem C10_sequential_rescan :
    render_template (String.mk (flatten [Tok.hole "a"]))
        [("a", "\x7b\x7bb\x7d\x7d"), ("b", "Z")] = "Z"
    ∧ String.mk (simultaneousSubst [Tok.hole "a"] [("a", "\x7b\x7bb\x7d\x7d"), ("b", "Z")])
        = "\x7b\x7bb\x7d\x7d"
    ∧ render_template (String.mk (flatten [Tok.hole "a"]))
        [("a", "\x7b\x7bb\x7d\x7d"), ("b", "Z")]
      ≠ String.mk (simultaneousSubst [Tok.hole "a"]
          [("a", "\x7b\x7bb\x7d\x7d"), ("b", "Z")]) := by
  refine ⟨by decide, by decide, by decide⟩

end CareOps
